import Mathlib

/-!
Shallow embedding of the markdown renderer in `src/components/markdown.ts`
(class `MarkdownRenderer`, class `MarkdownRenderState`, registry
`MARKDOWN_COMMANDS`).  Strings are modelled as `List Char` internally and
`String` at the interfaces; machine regexes are embedded as hand-written
matchers that reproduce the exact leftmost / greedy / lazy backtracking
semantics of the concrete patterns used by the source.  The JavaScript
`RangeError` thrown by `[...Array(indent + 1)]` when `indent` is not an
integer is modelled with `Except String`.  The MathJax collaborator
(out-of-scope per the spec) is a parameter `mc : String → Bool → String`
(formula, display flag); loops whose JS termination depends on the text
shrinking are written with an explicit fuel that provably dominates the
number of iterations of the source loop (each iteration of the source loop
consumes at least one character / one delimiter occurrence).
-/

namespace MD

/-- JavaScript `\s` (whitespace) restricted to the code points that can occur
in this development (ASCII whitespace).  The source regexes use `\s`,
`[^\S\n]` (whitespace except newline) and `String.prototype.trim`. -/
def isJsWs (c : Char) : Bool :=
  c = ' ' || c = '\t' || c = '\n' || c = '\r' || c = '\x0b' || c = '\x0c'

/-- The character class `[^\S\n]` of the source: whitespace except newline. -/
def isLineWs (c : Char) : Bool :=
  isJsWs c && c ≠ '\n'

/-- JavaScript `String.prototype.trim` on a character list. -/
def jsTrimL (l : List Char) : List Char :=
  ((l.dropWhile isJsWs).reverse.dropWhile isJsWs).reverse

/-- JavaScript `String.prototype.trim`. -/
def jsTrim (s : String) : String :=
  String.mk (jsTrimL s.data)

/-- Function `replaceInString` from `composables/utils`:
`str.substring(0, index) + replacement + str.substring(index + length)`. -/
def replaceInString (l : List Char) (index length : Nat) (repl : List Char) : List Char :=
  l.take index ++ repl ++ l.drop (index + length)

/-- Function `escapeHTML` from `composables/utils`.  Modelled from the spec: the
source builds a DOM text node and reads back `innerHTML`; the HTML
serialization of a text node escapes exactly `&`, `<` and `>`. -/
def escapeHTML (s : String) : String :=
  String.mk (s.data.flatMap fun c =>
    if c = '&' then ['&', 'a', 'm', 'p', ';']
    else if c = '<' then ['&', 'l', 't', ';']
    else if c = '>' then ['&', 'g', 't', ';']
    else [c])

/-- First index at which `pat` occurs as a prefix of a suffix of `l`
(the leftmost occurrence of the substring `pat` in `l`). -/
def findSeqIdx (pat : List Char) : List Char → Option Nat
  | [] => if pat = [] then some 0 else none
  | c :: rest =>
    if pat.isPrefixOf (c :: rest) then some 0
    else (findSeqIdx pat rest).map (· + 1)

/-- First index `j` with `l[j] = a` and `l[j+1] = b`. -/
def find2 (a b : Char) : List Char → Option Nat
  | c1 :: c2 :: rest =>
    if c1 = a ∧ c2 = b then some 0
    else (find2 a b (c2 :: rest)).map (· + 1)
  | _ => none

/-- First index of a single character. -/
def findChar (a : Char) : List Char → Option Nat
  | [] => none
  | c :: rest => if c = a then some 0 else (findChar a rest).map (· + 1)

/-- One global-replace pass for a lazy delimited pattern such as
`/\*\*([\S\s]*?)\*\*/g` (`d` is the delimiter, the capture is wrapped in
`pre`/`post`).  The match uses the leftmost opening occurrence of `d` and the
first (lazy) closing occurrence after it; when an opening occurrence has no
closing occurrence, no match exists anywhere in the remaining text (any later
closing would have closed the earlier opening), exactly as in the source.
Fuel: each replacement consumes at least `2 * d.length ≥ 2` characters of the
input, so `l.length + 1` iterations always suffice. -/
def replaceDelim (d pre post : List Char) : Nat → List Char → List Char
  | 0, l => l
  | f + 1, l =>
    match findSeqIdx d l with
    | none => l
    | some i =>
      let rest := l.drop (i + d.length)
      match findSeqIdx d rest with
      | none => l
      | some j =>
        l.take i ++ pre ++ rest.take j ++ post ++
          replaceDelim d pre post f (rest.drop (j + d.length))

/-- The characters of the class `[\\`*_{}[\]<>()#+-.!|]` in the escape
pattern of `renderText`.  Note `+-.` is a range, so `,` is included. -/
def escSet : List Char :=
  ['\\', Char.ofNat 96, '*', '_', '{', '}', '[', ']', '<', '>',
   '(', ')', '#', '+', ',', '-', '.', '!', '|']

/-- The pass `.replace(/\\([\\`*_{}[\]<>()#+-.!|])/g, '$1')`. -/
def escPass : List Char → List Char
  | '\\' :: c :: rest =>
    if escSet.contains c then c :: escPass rest
    else '\\' :: escPass (c :: rest)
  | c :: rest => c :: escPass rest
  | [] => []

/-- The pass `.replace(/ {2,}\n/g, '<br>')`: a maximal run of two or more
spaces immediately followed by a newline becomes `<br>` (the newline is
consumed).  Fuel: every iteration consumes at least one character. -/
def brPass : Nat → List Char → List Char
  | 0, l => l
  | f + 1, l =>
    match l with
    | [] => []
    | c :: rest =>
      if c = ' ' then
        let run := (l.takeWhile (· = ' ')).length
        if 2 ≤ run ∧ l.get? run = some '\n' then
          ['<', 'b', 'r', '>'] ++ brPass f (l.drop (run + 1))
        else l.take run ++ brPass f (l.drop run)
      else c :: brPass f rest

/-- The pass `.replace(/\[(.*)]\((.*?)\)/g, '<a href="$2">$1</a>')`: the
label group is greedy and `.` does not cross newlines, so the label extends
to the last `](` of the line that still has a `)` after it; the url group is
lazy (first `)`).  Fuel: every iteration consumes at least one character. -/
def linkPass : Nat → List Char → List Char
  | 0, l => l
  | f + 1, l =>
    match l with
    | [] => []
    | c :: rest =>
      if c = '[' then
        let seg := rest.takeWhile (· ≠ '\n')
        let cand := ((List.range seg.length).reverse).find? fun j =>
          seg.get? j = some ']' ∧ seg.get? (j + 1) = some '(' ∧
            ((seg.drop (j + 2)).contains ')')
        match cand with
        | none => c :: linkPass f rest
        | some j =>
          let label := seg.take j
          let after := seg.drop (j + 2)
          let k := (findChar ')' after).getD 0
          let url := after.take k
          ['<', 'a', ' ', 'h', 'r', 'e', 'f', '=', '"'] ++ url ++ ['"', '>'] ++
            label ++ ['<', '/', 'a', '>'] ++
            linkPass f (rest.drop (j + 2 + k + 1))
      else c :: linkPass f rest

/-- Leftmost match of the image pattern `!\[(.*?)]\((.*?)\)(\{.*?})?`:
returns (start index, match length, alt, url, optional braced id group).
`.` does not cross newlines; the alt group is lazy, so it ends at the first
`](` of the line (if the line has no `)` after it the whole attempt at this
`![` fails, and extending the lazy group cannot recover, since any later `](`
has even less room for a `)`). -/
def findImageMatch : List Char → Option (Nat × Nat × List Char × List Char × Option (List Char))
  | '!' :: '[' :: rest =>
    let seg := rest.takeWhile (· ≠ '\n')
    (match find2 ']' '(' seg with
     | some j =>
       let after := seg.drop (j + 2)
       (match findChar ')' after with
        | some k =>
          let alt := seg.take j
          let url := after.take k
          let tl := after.drop (k + 1)
          (match tl.head? with
           | some '{' =>
             (match findChar '}' (tl.drop 1) with
              | some p =>
                some (0, 2 + j + 2 + k + 1 + p + 2, alt, url, some ((tl.drop 1).take p))
              | none => some (0, 2 + j + 2 + k + 1, alt, url, none))
           | _ => some (0, 2 + j + 2 + k + 1, alt, url, none))
        | none =>
          (findImageMatch ('[' :: rest)).map fun (i, n, a, u, g) => (i + 1, n, a, u, g))
     | none =>
       (findImageMatch ('[' :: rest)).map fun (i, n, a, u, g) => (i + 1, n, a, u, g))
  | _ :: rest =>
    (findImageMatch rest).map fun (i, n, a, u, g) => (i + 1, n, a, u, g)
  | [] => none

/-- The replacement string built by `_renderImages` for one match. -/
def imageReplacement (alt url : List Char) (grp : Option (List Char)) : List Char :=
  let idAttr := match grp with
    | some g => ('i' :: 'd' :: '=' :: '"' :: g) ++ ['"']
    | none => []
  if alt = [] then
    "<img src=\"".data ++ url ++ "\" alt=\"\" ".data ++ idAttr ++ "/>".data
  else
    "<figure>".data ++
      "<img src=\"".data ++ url ++ "\" alt=\"".data ++ alt ++ "\" ".data ++ idAttr ++ "/>".data ++
      "<figcaption>".data ++ alt ++ "</figcaption>".data ++
      "</figure>".data

/-- The `while`-loop of `_renderImages` (rescans from the start after every
replacement, as the source does).  Fuel: every replacement removes exactly one
occurrence of the substring `](` (the one between the alt and url groups; the
captured groups cannot contain `](` except the url, which is re-emitted once),
so the number of iterations is bounded by the number of `](` occurrences and
in particular by `l.length + 1`. -/
def renderImagesLoop : Nat → List Char → List Char
  | 0, l => l
  | f + 1, l =>
    match findImageMatch l with
    | none => l
    | some (i, n, alt, url, grp) =>
      renderImagesLoop f (replaceInString l i n (imageReplacement alt url grp))

/-- Leftmost match of the inline-math pattern `\${2}(.*?)\${2}`: returns
(start index, match length, inner text).  `.` does not cross newlines, so the
closing `$$` must be on the same line as the opening one. -/
def findMathMatch : List Char → Option (Nat × Nat × List Char)
  | '$' :: '$' :: rest =>
    let seg := rest.takeWhile (· ≠ '\n')
    (match find2 '$' '$' seg with
     | some j => some (0, j + 4, seg.take j)
     | none => (findMathMatch ('$' :: rest)).map fun (i, n, t) => (i + 1, n, t))
  | _ :: rest => (findMathMatch rest).map fun (i, n, t) => (i + 1, n, t)
  | [] => none

/-- The `while`-loop of `_renderInlineMath`: each `$$…$$` span is replaced by
the fragment returned by the MathJax collaborator `mc` in non-display mode on
the trimmed inner text.  Fuel: the collaborator returns a math fragment (it
contains no `$$` spans), so every iteration removes one `$$…$$` span; the
iteration count is bounded by `l.length + 1`. -/
def inlineMathPass (mc : String → Bool → String) : Nat → List Char → List Char
  | 0, l => l
  | f + 1, l =>
    match findMathMatch l with
    | none => l
    | some (i, n, inner) =>
      inlineMathPass mc f (replaceInString l i n (mc (jsTrim (String.mk inner)) false).data)

/-- The ordered substitution chain of `MarkdownRenderState.renderText`
(non-escaped branch): images, inline math, then `**` bold, `__` ins,
`==` mark, `~~` del, `*` italic, `_` sub, `^` sup, backtick code span,
link, forced line break, escape removal — in exactly this order. -/
def inlineTransform (mc : String → Bool → String) (s : String) : String :=
  let t1 := renderImagesLoop (s.data.length + 1) s.data
  let t2 := inlineMathPass mc (t1.length + 1) t1
  let a := replaceDelim ['*', '*'] ("<b>".data) ("</b>".data) (t2.length + 1) t2
  let b := replaceDelim ['_', '_'] ("<ins>".data) ("</ins>".data) (a.length + 1) a
  let c := replaceDelim ['=', '='] ("<mark>".data) ("</mark>".data) (b.length + 1) b
  let d := replaceDelim ['~', '~'] ("<del>".data) ("</del>".data) (c.length + 1) c
  let e := replaceDelim ['*'] ("<i>".data) ("</i>".data) (d.length + 1) d
  let f := replaceDelim ['_'] ("<sub>".data) ("</sub>".data) (e.length + 1) e
  let g := replaceDelim ['^'] ("<sup>".data) ("</sup>".data) (f.length + 1) f
  let h := replaceDelim [Char.ofNat 96] ("<code>".data) ("</code>".data) (g.length + 1) g
  let i := linkPass (h.length + 1) h
  let j := brPass (i.length + 1) i
  String.mk (escPass j)

/-- The `TextAlignment` enum of the source. -/
inductive TextAlignment where
  | left
  | center
  | right
  | justify
deriving DecidableEq, Repr

/-- The string value of a `TextAlignment` member. -/
def TextAlignment.str : TextAlignment → String
  | .left => "left"
  | .center => "center"
  | .right => "right"
  | .justify => "justify"

/-! ### Trigger matchers (the `regex` fields of `MARKDOWN_COMMANDS`)

Each matcher takes the remaining input and returns the length of `match[0]`
together with the captured groups, or `none` when the anchored regex fails. -/

/-- Trigger `CHECKBOX_LABEL`: `/^[^\S\n]*- \[([ x])]/` — returns (consumed, checked). -/
def matchCheckbox (l : List Char) : Option (Nat × Bool) :=
  let w := (l.takeWhile isLineWs).length
  let l2 := l.drop w
  if l2.take 4 = ['-', ' ', '[', ' '] ∧ l2.get? 4 = some ']' then some (w + 5, false)
  else if l2.take 4 = ['-', ' ', '[', 'x'] ∧ l2.get? 4 = some ']' then some (w + 5, true)
  else none

/-- Trigger `BLOCKQUOTE`: `/^[^\S\n]*>/` — returns the consumed length. -/
def matchBlockquote (l : List Char) : Option Nat :=
  let w := (l.takeWhile isLineWs).length
  if (l.drop w).head? = some '>' then some (w + 1) else none

/-- Trigger `HORIZONTAL_RULE`: `/^[^\S\n]*-{3,}/`. -/
def matchHr (l : List Char) : Option Nat :=
  let w := (l.takeWhile isLineWs).length
  let d := ((l.drop w).takeWhile (· = '-')).length
  if 3 ≤ d then some (w + d) else none

/-- Trigger `PAGE_BREAK`: `/^[^\S\n]*={3,}/`. -/
def matchPage (l : List Char) : Option Nat :=
  let w := (l.takeWhile isLineWs).length
  let d := ((l.drop w).takeWhile (· = '=')).length
  if 3 ≤ d then some (w + d) else none

/-- Trigger `TABLE`: `/^[^\S\n]*\|/`. -/
def matchTable (l : List Char) : Option Nat :=
  let w := (l.takeWhile isLineWs).length
  if (l.drop w).head? = some '|' then some (w + 1) else none

/-- Total length consumed by the greedy repetition `((:? {4})*)` of the
list-item regex.  NOTE: the source writes `(:?` (an optional literal colon),
not the non-capturing group `(?:`, so each repetition is an optional `:`
followed by exactly four spaces.  Giving back repetitions can never turn an
overall failure into a success (the freed characters start with `:` or fit in
the following `[^\S\n]*`), so the greedy count is exact. -/
def repsLenF : Nat → List Char → Nat
  | 0, _ => 0
  | f + 1, l =>
    if l.take 5 = [':', ' ', ' ', ' ', ' '] then 5 + repsLenF f (l.drop 5)
    else if l.take 4 = [' ', ' ', ' ', ' '] then 4 + repsLenF f (l.drop 4)
    else 0

/-- Fuel wrapper for `repsLenF`: every repetition consumes at least four
characters, so `l.length + 1` iterations always suffice. -/
def repsLen (l : List Char) : Nat :=
  repsLenF (l.length + 1) l

/-- Trigger `LIST_ITEM`: `/^((:? {4})*)[^\S\n]*([0-9]+\.|-)[^\S\n]/` — returns
(consumed, `match[1].length`, ordered flag = `match[3].endsWith('.')`). -/
def matchListItem (l : List Char) : Option (Nat × Nat × Bool) :=
  let r := repsLen l
  let l3 := l.drop r
  let w := (l3.takeWhile isLineWs).length
  let l4 := l3.drop w
  let d := (l4.takeWhile Char.isDigit).length
  if 1 ≤ d ∧ l4.get? d = some '.' ∧ isLineWs ((l4.get? (d + 1)).getD '\n') then
    some (r + w + d + 2, r, true)
  else if l4.head? = some '-' ∧ isLineWs ((l4.get? 1).getD '\n') then
    some (r + w + 2, r, false)
  else none

/-- Trigger `CODE_BLOCK`: ``/^[^\S\n]*```([\s\S]*?)```/`` — the fence may span
newlines; the inner group is lazy.  Returns (consumed, raw inner text). -/
def matchCode (l : List Char) : Option (Nat × List Char) :=
  let w := (l.takeWhile isLineWs).length
  let l2 := l.drop w
  let tick := Char.ofNat 96
  if l2.take 3 = [tick, tick, tick] then
    match findSeqIdx [tick, tick, tick] (l2.drop 3) with
    | some j => some (w + 3 + j + 3, (l2.drop 3).take j)
    | none => none
  else none

/-- Trigger `MATH`: `/^[^\S\n]*\${3}([\s\S]*?)\${3}/`. -/
def matchMath (l : List Char) : Option (Nat × List Char) :=
  let w := (l.takeWhile isLineWs).length
  let l2 := l.drop w
  if l2.take 3 = ['$', '$', '$'] then
    match findSeqIdx ['$', '$', '$'] (l2.drop 3) with
    | some j => some (w + 3 + j + 3, (l2.drop 3).take j)
    | none => none
  else none

/-- Trigger `HEADING`: `/^[^\S\n]*(#{1,6})(.*?)(\{.*})?(?=\n|$)/` — returns
(consumed, level, text group, optional id without its braces).  `#{1,6}`
takes at most six hashes (surplus hashes fall into the lazy text group), the
lazy text extends to the end of the line, and the optional greedy brace group
matches exactly when the rest of the line ends in `}` and contains a `{`
(splitting at the first `{`). -/
def matchHeading (l : List Char) : Option (Nat × Nat × List Char × Option (List Char)) :=
  let w := (l.takeWhile isLineWs).length
  let l1 := l.drop w
  let h := (l1.takeWhile (· = '#')).length
  if h = 0 then none
  else
    let n := min h 6
    let rest := (l1.drop n).takeWhile (· ≠ '\n')
    if rest.getLast? = some '}' ∧ '{' ∈ rest then
      let p := rest.findIdx (· = '{')
      some (w + n + rest.length, n, rest.take p, some (((rest.drop p).drop 1).dropLast))
    else some (w + n + rest.length, n, rest, none)

/-- Map from the first three characters of the paragraph alignment group
(`match[1]?.substring(0, 3)`) to a style; the four keys that exist in the
source's lookup object. -/
def alignKey (k : List Char) : Option TextAlignment :=
  if k = [':', ':', ':'] then some TextAlignment.justify
  else if k = [':', '-', '-'] then some TextAlignment.left
  else if k = ['-', '-', ':'] then some TextAlignment.right
  else if k = [':', '-', ':'] then some TextAlignment.center
  else none

/-- A with-colon candidate of the alignment group `(:?(:::|:--|--:|:-:)[^\S\n])?`:
a literal `:`, one of the four markers, and one `[^\S\n]` character. -/
def candColon (l1 : List Char) (a : List Char) : Option (Nat × List Char) :=
  if l1.head? = some ':' ∧ (l1.drop 1).take 3 = a ∧ isLineWs ((l1.get? 4).getD '\n') then
    some (5, ':' :: a.take 2)
  else none

/-- A without-colon candidate of the alignment group. -/
def candBare (l1 : List Char) (a : List Char) : Option (Nat × List Char) :=
  if l1.take 3 = a ∧ isLineWs ((l1.get? 3).getD '\n') then some (4, a) else none

/-- The four alternation branches of the alignment marker, in regex order. -/
def alignAlts : List (List Char) :=
  [[':', ':', ':'], [':', '-', '-'], ['-', '-', ':'], [':', '-', ':']]

/-- All ways the (optional) alignment group can match at `l1`, in the order
regex backtracking tries them (`:?` greedy first, then the alternation in
source order). -/
def tryAlignCand (l1 : List Char) : List (Nat × List Char) :=
  alignAlts.filterMap (candColon l1) ++ alignAlts.filterMap (candBare l1)

/-- The lookahead `(?=\S)`. -/
def lookNonWs (l2 : List Char) : Bool :=
  match l2.head? with
  | some c => !isJsWs c
  | none => false

/-- Trigger `PARAGRAPH`: `/^[^\S\n]*(:?(:::|:--|--:|:-:)[^\S\n])?(?=\S)/` — returns
(consumed, alignment derived from `match[1]?.substring(0,3)`).  If every way
of matching the optional group leaves the lookahead failing, the group
matches empty and the lookahead is tested right after the whitespace. -/
def matchParagraph (l : List Char) : Option (Nat × Option TextAlignment) :=
  let w := (l.takeWhile isLineWs).length
  let l1 := l.drop w
  match (tryAlignCand l1).find? (fun c => lookNonWs (l1.drop c.1)) with
  | some (g, key) => some (w + g, alignKey key)
  | none => if lookNonWs l1 then some (w, none) else none

/-! ### Data model -/

/-- The `MarkdownCommand` enum. -/
inductive MarkdownCommand where
  | paragraph
  | heading
  | checkboxLabel
  | blockquote
  | list
  | listItem
  | table
  | codeBlock
  | horizontalRule
  | pageBreak
  | pageMath
deriving DecidableEq, Repr

/-- The kind-specific `state` object of a command instance. -/
inductive CmdState where
  | checkbox (id : Nat) (checked : Bool) (label : String)
  | blockquote
  | hr
  | list (ordered : Bool)
  | listItem (id : Nat)
  | table (rows : List String)
  | code (code : String)
  | page
  | math (m : String)
  | heading (n : Nat) (text : String) (id : Option String)
  | paragraph (text : String) (align : Option TextAlignment)
deriving DecidableEq, Repr

/-- Structure `MarkdownCommandInstance`: `{ type, state }`. -/
structure Inst where
  type : MarkdownCommand
  state : CmdState
deriving DecidableEq, Repr

/-- Structure `MarkdownRenderState`: id counter, output buffer and open-command stack. -/
structure RState where
  id : Nat
  html : String
  stack : List Inst
deriving DecidableEq, Repr

/-- Method `MarkdownRenderState.uniqueId`: returns `_id++` (the old value) and the
incremented counter. -/
def uniqueId (i : Nat) : Nat × Nat :=
  (i, i + 1)

/-- An attribute value as passed to `renderOpeningTag`. -/
inductive AttrV where
  | str (s : String)
  | bool (b : Bool)
  | nil
deriving DecidableEq, Repr

/-- Method `MarkdownRenderState.renderOpeningTag`: nil/false values vanish, `true`
renders the bare key, strings render `k="v"`; a space joins the entries (an
empty entry therefore leaves a stray space, as in the source). -/
def renderOpeningTagStr (tag : String) (attrs : List (String × AttrV))
    (selfClosing whitespace : Bool) : String :=
  let props := String.intercalate (" ") (attrs.map fun kv =>
    match kv.2 with
    | .nil => ""
    | .bool false => ""
    | .bool true => kv.1
    | .str v => kv.1 ++ "=\"" ++ v ++ "\"")
  "<" ++ tag ++ (if props = "" then "" else " " ++ props) ++
    (if selfClosing then "/" else "") ++ ">" ++ (if whitespace then "\n" else "")

/-- Method `MarkdownRenderState.renderClosingTag`. -/
def renderClosingTagStr (tag : String) (whitespace : Bool) : String :=
  "</" ++ tag ++ ">" ++ (if whitespace then "\n" else "")

/-- Method `MarkdownRenderState.renderText`: appends the transformed (or, for code
blocks, escaped) text plus a newline to the output buffer. -/
def renderText (mc : String → Bool → String) (escaped : Bool) (text : String)
    (st : RState) : RState :=
  { st with html := st.html ++ (if escaped then escapeHTML text else inlineTransform mc text) ++ "\n" }

/-! ### Table sub-parser (`renderTable` / `_parseTableCells`) -/

/-- Pattern `MD_TABLE_CELL_REGEX = /^\s*([^|:]*)\s*\|/`: succeeds exactly when a `|`
occurs with no `:` before it; `match[1]` is everything after the maximal
leading whitespace up to that first `|` (the greedy middle group swallows the
trailing whitespace). -/
def matchCell (l : List Char) : Option (Nat × String) :=
  let w := (l.takeWhile isJsWs).length
  let l2 := l.drop w
  let g := l2.takeWhile (fun c => c ≠ '|' && c ≠ ':')
  if (l2.drop g.length).head? = some '|' then some (w + g.length + 1, String.mk g)
  else none

/-- Pattern `MD_TABLE_SEPARATOR_REGEX = /^\s*(:?-+:?)\s*\|/`. -/
def matchSep (l : List Char) : Option (Nat × String) :=
  let w := (l.takeWhile isJsWs).length
  let l2 := l.drop w
  let c1 := if l2.head? = some ':' then 1 else 0
  let l3 := l2.drop c1
  let d := (l3.takeWhile (· = '-')).length
  if d = 0 then none
  else
    let l4 := l3.drop d
    let c2 := if l4.head? = some ':' then 1 else 0
    let l5 := l4.drop c2
    let w2 := (l5.takeWhile isJsWs).length
    if (l5.drop w2).head? = some '|' then
      some (w + c1 + d + c2 + w2 + 1,
        String.mk ((if c1 = 1 then [':'] else []) ++ List.replicate d '-' ++
          (if c2 = 1 then [':'] else [])))
    else none

/-- Search for the end of the lazy group in
`MD_TABLE_ID_REGEX = /^[^\S\n]*(\{.*?})(?=\n|$)/`: the first `}` that is
followed by a newline or the end of the string, with no newline inside the
group. -/
def findCloseBrk : List Char → Option (Nat × List Char)
  | [] => none
  | c :: rest =>
    if c = '\n' then none
    else if c = '}' ∧ (rest.head? = none ∨ rest.head? = some '\n') then some (0, [])
    else (findCloseBrk rest).map fun (k, cs) => (k + 1, c :: cs)

/-- Pattern `MD_TABLE_ID_REGEX`: returns `match[1]` (braces included). -/
def matchIdEnd (l : List Char) : Option String :=
  let w := (l.takeWhile isLineWs).length
  let l2 := l.drop w
  if l2.head? = some '{' then
    match findCloseBrk (l2.drop 1) with
    | some (_, cs) => some (String.mk ('{' :: cs ++ ['}']))
    | none => none
  else none

/-- The cell loop of `_parseTableCells`: drops the leading character, then
repeatedly matches `m` while the row is nonempty, returning the cells and the
unconsumed remainder.  Fuel: each match consumes at least the terminating `|`
(one character), so `l.length + 1` iterations suffice. -/
def parseCellsRem (m : List Char → Option (Nat × String)) : Nat → List Char → List String × List Char
  | 0, l => ([], l)
  | f + 1, l =>
    if l.length = 0 then ([], l)
    else
      match m l with
      | some (k, c) =>
        let r := parseCellsRem m f (l.drop k)
        (c :: r.1, r.2)
      | none => ([], l)

/-- Method `_parseTableCells(row, regex)` (no end regex): the list of `match[1]`s. -/
def parseTableCells (m : List Char → Option (Nat × String)) (row : String) : List String :=
  (parseCellsRem m (row.data.length + 1) (row.data.drop 1)).1

/-- Method `_parseTableCells(rows[0], MD_TABLE_CELL_REGEX, MD_TABLE_ID_REGEX)`:
the cell loop plus the optional trailing id cell. -/
def headerCellsRaw (row : String) : List String :=
  let r := parseCellsRem matchCell (row.data.length + 1) (row.data.drop 1)
  match matchIdEnd r.2 with
  | some s => r.1 ++ [s]
  | none => r.1

/-- Method `renderTable` id extraction: if the last header cell starts with `{`
and ends with `}` it is popped and its braces stripped. -/
def headerSplit (row : String) : Option String × List String :=
  let hs := headerCellsRaw row
  match hs.getLast? with
  | some s =>
    if s.data.head? = some '{' ∧ s.data.getLast? = some '}' then
      (some (String.mk ((s.data.drop 1).dropLast)), hs.dropLast)
    else (none, hs)
  | none => (none, hs)

/-- The header cells that remain after the id extraction. -/
def headerCellsFinal (row : String) : List String :=
  (headerSplit row).2

/-- The separator cells of a row (`MD_TABLE_SEPARATOR_REGEX`). -/
def sepCells (row : String) : List String :=
  parseTableCells matchSep row

/-- The body cells of a row (`MD_TABLE_CELL_REGEX`). -/
def bodyCells (row : String) : List String :=
  parseTableCells matchCell row

/-- The per-column alignment derived from one separator cell. -/
def alignOf (s : String) : TextAlignment :=
  let sep := (jsTrim s).data
  let left := sep.head? = some ':'
  let right := sep.getLast? = some ':'
  if left ∧ ¬right then TextAlignment.left
  else if ¬left ∧ right then TextAlignment.right
  else if left ∧ right then TextAlignment.center
  else TextAlignment.left

/-- The body-row loop of `renderTable`: collects the parsed rows in order,
failing at the first row whose cell count differs from the header count. -/
def collectBody (hdrLen : Nat) : List String → Option (List (List String))
  | [] => some []
  | r :: rs =>
    let cs := bodyCells r
    if cs.length = hdrLen then (collectBody hdrLen rs).map (cs :: ·)
    else none

/-- The markup emitted by `renderTable` on success: a `thead` with the header
cells (trimmed, inline-rendered, alignment-styled) in order, then a `tbody`
with every body row's cells (inline-rendered, alignment-styled) in order. -/
def tableSuccessHtml (mc : String → Bool → String) (idA : Option String)
    (hdrs : List String) (aligns : List TextAlignment)
    (body : List (List String)) : String :=
  let idAttr := match idA with
    | some v => AttrV.str v
    | none => AttrV.nil
  renderOpeningTagStr ("table") [(("id"), idAttr)] false true ++
    "<thead>\n<tr>\n" ++
    String.join ((hdrs.zip aligns).map fun ha =>
      "<th style=\"text-align: " ++ ha.2.str ++ ";\">\n" ++
        inlineTransform mc (jsTrim ha.1) ++ "\n" ++ "</th>\n") ++
    "</tr>\n</thead>\n" ++
    "<tbody>\n" ++
    String.join (body.map fun r =>
      "<tr>\n" ++
        String.join ((r.zip aligns).map fun ca =>
          "<td style=\"text-align: " ++ ca.2.str ++ ";\">\n" ++
            inlineTransform mc ca.1 ++ "\n" ++ "</td>\n") ++
      "</tr>\n") ++
    "</tbody>\n</table>\n"

/-- Method `MarkdownRenderState.renderTable`: returns the updated state and the
boolean result of the source method. -/
def renderTable (mc : String → Bool → String) (st : RState) (rows : List String) :
    RState × Bool :=
  if rows.length < 2 then (st, false)
  else
    let hs := headerSplit (rows.getD 0 (""))
    let seps := sepCells (rows.getD 1 (""))
    let aligns := seps.map alignOf
    if seps.length ≠ hs.2.length then (st, false)
    else
      match collectBody hs.2.length (rows.drop 2) with
      | none => (st, false)
      | some body =>
        ({ st with html := st.html ++ tableSuccessHtml mc hs.1 hs.2 aligns body }, true)

/-- The fallback markup of the TABLE `onEnd`: a bare `<p>` wrapping the raw
buffered rows joined with `<br>`, inline-rendered by `renderText`. -/
def tableFallbackHtml (mc : String → Bool → String) (rows : List String) : String :=
  "<p>\n" ++ inlineTransform mc (String.intercalate ("<br>") rows) ++ "\n" ++ "</p>\n"

/-- The `onEnd` hook of the TABLE command: try the table parse; on failure
emit a paragraph of the raw buffered rows joined with `<br>`. -/
def tableOnEnd (mc : String → Bool → String) (rows : List String) (st : RState) : RState :=
  let r := renderTable mc st rows
  if r.2 then r.1
  else { st with html := st.html ++ tableFallbackHtml mc rows }

/-! ### Lifecycle hooks and the reconciler -/

/-- The markup emitted by the `onStart` hook of a command instance. -/
def onStartHtml (inst : Inst) : String :=
  match inst.type with
  | .blockquote => "<blockquote>\n"
  | .list =>
    (match inst.state with
     | .list true => "<ol>\n"
     | _ => "<ul>\n")
  | .listItem => "<li>\n"
  | .pageBreak => "<div class=\"pagebreak\">\n</div>\n"
  | _ => ""

/-- Method `MarkdownRenderState.pushCommand`: push, then fire `onStart`. -/
def pushCommand (st : RState) (inst : Inst) : RState :=
  { st with stack := st.stack ++ [inst], html := st.html ++ onStartHtml inst }

/-- The markup emitted by the CHECKBOX_LABEL `onEnd`: a self-closing checkbox
input with the generated id, a label `for` that id wrapping the trimmed
accumulated text, then a line break. -/
def checkboxCloseHtml (mc : String → Bool → String) (i : Nat) (ch : Bool) (lb : String) : String :=
  (renderOpeningTagStr ("input")
    [(("id"), AttrV.str ("input_checkbox_" ++ toString i)),
     (("type"), AttrV.str ("checkbox")), (("checked"), AttrV.bool ch)] true true) ++
  (renderOpeningTagStr ("label")
    [(("for"), AttrV.str ("input_checkbox_" ++ toString i))] false true) ++
  inlineTransform mc (jsTrim lb) ++ "\n" ++ "</label>\n" ++ "<br>\n"

/-- The markup emitted by the HEADING `onEnd`. -/
def headingCloseHtml (mc : String → Bool → String) (n : Nat) (txt : String)
    (idO : Option String) : String :=
  (renderOpeningTagStr ("h" ++ toString n)
    [(("id"), match idO with
      | some v => AttrV.str v
      | none => AttrV.nil)] false true) ++
  inlineTransform mc txt ++ "\n" ++ "</" ++ ("h" ++ toString n) ++ ">\n"

/-- The markup emitted by the PARAGRAPH `onEnd`: a `p` styled by the committed
alignment (default `left`) wrapping the inline-rendered accumulated text. -/
def paragraphCloseHtml (mc : String → Bool → String) (txt : String)
    (al : Option TextAlignment) : String :=
  (renderOpeningTagStr ("p")
    [(("style"), AttrV.str ("text-align: " ++
      (match al with
       | some a => a.str
       | none => "left") ++ ";"))] false true) ++
  inlineTransform mc txt ++ "\n" ++ "</p>\n"

/-- The `onEnd` hook of a command instance, applied to the render state. -/
def onEndEffect (mc : String → Bool → String) (inst : Inst) (st : RState) : RState :=
  match inst.type, inst.state with
  | .checkboxLabel, .checkbox i ch lb =>
    { st with html := st.html ++ checkboxCloseHtml mc i ch lb }
  | .blockquote, _ => { st with html := st.html ++ "</blockquote>\n" }
  | .horizontalRule, _ => { st with html := st.html ++ "<hr/>\n" }
  | .list, s =>
    { st with html := st.html ++
        (match s with
         | .list true => "</ol>\n"
         | _ => "</ul>\n") }
  | .listItem, _ => { st with html := st.html ++ "</li>\n" }
  | .table, .table rows => tableOnEnd mc rows st
  | .codeBlock, .code cd =>
    { st with html := st.html ++ "<pre>\n" ++ "<code>" ++ escapeHTML cd ++ "\n" ++
        "</code>" ++ "</pre>\n" }
  | .pageMath, .math m => { st with html := st.html ++ mc m true }
  | .heading, .heading n txt idO =>
    { st with html := st.html ++ headingCloseHtml mc n txt idO }
  | .paragraph, .paragraph txt al =>
    { st with html := st.html ++ paragraphCloseHtml mc txt al }
  | _, _ => st

/-- Method `MarkdownRenderState.popCommand`: pop the innermost instance (if any) and
fire its `onEnd`. -/
def popCommand (mc : String → Bool → String) (st : RState) : RState :=
  match st.stack.getLast? with
  | none => st
  | some inst => onEndEffect mc inst { st with stack := st.stack.dropLast }

/-- Iterated (`n` consecutive) `popCommand`s (the close loop of `_diffCommands`). -/
def popN (mc : String → Bool → String) : Nat → RState → RState
  | 0, st => st
  | n + 1, st => popN mc n (popCommand mc st)

/-- JavaScript `Array.prototype.lastIndexOf` (−1 when absent). -/
def jsLastIndexOf : List MarkdownCommand → MarkdownCommand → Int
  | [], _ => -1
  | x :: xs, a =>
    let r := jsLastIndexOf xs a
    if 0 ≤ r then r + 1 else if x = a then 0 else -1

/-- The `isEqualToFirst` continuation-identity predicate of each command
(`true` models the absence of a predicate, which lets `_diffCommands` keep
the frame whenever the types agree). -/
def isEqualToFirstB (c : MarkdownCommand) (cmd : CmdState)
    (stack newStack : List Inst) : Bool :=
  match c with
  | .checkboxLabel => false
  | .pageBreak => false
  | .heading => false
  | .list =>
    let isLast := jsLastIndexOf (newStack.map (·.type)) .list = 0
    !isLast || (match stack.head? with
      | some o => o.state = cmd
      | none => false)
  | .listItem =>
    let isLast := jsLastIndexOf (newStack.map (·.type)) .listItem = 0
    !isLast || (match stack.head? with
      | some o => o.state = cmd
      | none => false)
  | .paragraph =>
    (match cmd with
     | .paragraph _ a =>
       a.isNone || (match stack.head? with
        | some o =>
          (match o.state with
           | .paragraph _ oa => oa = a
           | _ => false)
        | none => false)
     | _ => true)
  | _ => true

/-- The shared-prefix computation of `MarkdownRenderer._diffCommands`: walk
both sequences while the types agree and the continuation-identity predicate
(receiving both stacks sliced from the current position) accepts. -/
def diffIndex : List Inst → List Inst → Nat
  | o :: os, n :: ns =>
    if o.type ≠ n.type then 0
    else if ¬ isEqualToFirstB n.type n.state (o :: os) (n :: ns) then 0
    else 1 + diffIndex os ns
  | _, _ => 0

/-- Method `_diffCommands` followed by the push loop of `render`: close every frame
beyond the shared prefix (deepest first), then open the new frames
(shallowest first). -/
def reconcile (mc : String → Bool → String) (cmds : List Inst) (st : RState) : RState :=
  let i := diffIndex st.stack cmds
  let st1 := popN mc (st.stack.length - i) st
  (cmds.drop i).foldl pushCommand st1

/-- The dispatch of the residual line text to the `onTextLine` hook of the
innermost open command (commands without a hook absorb the line silently). -/
def onTextLineDispatch (mc : String → Bool → String) (st : RState) (text : String) : RState :=
  match st.stack.getLast? with
  | none => st
  | some inst =>
    match inst.type, inst.state with
    | .checkboxLabel, .checkbox i ch _ =>
      { st with stack := st.stack.dropLast ++ [⟨.checkboxLabel, .checkbox i ch text⟩] }
    | .listItem, _ => renderText mc false text st
    | .table, .table rows =>
      { st with stack := st.stack.dropLast ++ [⟨.table, .table (rows ++ [("|") ++ text])⟩] }
    | .paragraph, .paragraph t a =>
      { st with stack := st.stack.dropLast ++ [⟨.paragraph, .paragraph (t ++ text ++ "\n") a⟩] }
    | _, _ => st

/-! ### Line classifier and render driver -/

/-- The instances pushed by the LIST_ITEM `onMatch`: one LIST/LIST_ITEM pair
per indent level, innermost last, each list item taking a fresh id. -/
def listItemPairs (ordered : Bool) (idc n : Nat) : List Inst :=
  ((List.range n).map fun j =>
    [⟨.list, .list ordered⟩, ⟨.listItem, .listItem (idc + j)⟩]).flatten

/-- One pass of the registry scan of `_lineCommands`: the first descriptor
(in the source's insertion order) whose trigger matches; returns the consumed
length, the updated id counter, the instances produced by `onMatch` (or the
default bare instance) and the descriptor's stackability.  The LIST
descriptor has a null regex and is skipped.  The LIST_ITEM `onMatch` computes
`indent = match[1].length / 4` in floating point and evaluates
`[...Array(indent + 1)]`, which throws a `RangeError` when the length is not
an integer. -/
def scanOnce (idc : Nat) (l : List Char) :
    Except String (Option (Nat × Nat × List Inst × Bool)) :=
  match matchCheckbox l with
  | some (k, ch) =>
    .ok (some (k, idc + 1, [⟨.checkboxLabel, .checkbox idc ch ("")⟩], false))
  | none =>
  match matchBlockquote l with
  | some k => .ok (some (k, idc, [⟨.blockquote, .blockquote⟩], true))
  | none =>
  match matchHr l with
  | some k => .ok (some (k, idc, [⟨.horizontalRule, .hr⟩], false))
  | none =>
  match matchListItem l with
  | some (k, m1, ord) =>
    if m1 % 4 = 0 then
      .ok (some (k, idc + (m1 / 4 + 1), listItemPairs ord idc (m1 / 4 + 1), false))
    else .error ("Invalid array length")
  | none =>
  match matchTable l with
  | some k => .ok (some (k, idc, [⟨.table, .table []⟩], false))
  | none =>
  match matchCode l with
  | some (k, content) =>
    .ok (some (k, idc, [⟨.codeBlock, .code (String.mk (jsTrimL content))⟩], false))
  | none =>
  match matchPage l with
  | some k => .ok (some (k, idc, [⟨.pageBreak, .page⟩], false))
  | none =>
  match matchMath l with
  | some (k, content) => .ok (some (k, idc, [⟨.pageMath, .math (String.mk content)⟩], false))
  | none =>
  match matchHeading l with
  | some (k, n, txt, idO) =>
    .ok (some (k, idc, [⟨.heading, .heading n (String.mk txt) (idO.map String.mk)⟩], false))
  | none =>
  match matchParagraph l with
  | some (k, al) => .ok (some (k, idc, [⟨.paragraph, .paragraph ("") al⟩], false))
  | none => .ok none

/-- The do/while loop of `_lineCommands`: rescan from the top of the registry
as long as the matched descriptor is stackable.  Fuel: only BLOCKQUOTE is
stackable and matchable, and its match consumes at least one character, so
`l.length + 1` iterations always suffice. -/
def lineCommandsLoop : Nat → Nat → List Char → Except String (Nat × Nat × List Inst)
  | 0, idc, _ => .ok (0, idc, [])
  | f + 1, idc, l =>
    match scanOnce idc l with
    | .error e => .error e
    | .ok none => .ok (0, idc, [])
    | .ok (some (k, id2, insts, stk)) =>
      if stk then
        match lineCommandsLoop f id2 (l.drop k) with
        | .error e => .error e
        | .ok (m, id3, insts2) => .ok (k + m, id3, insts ++ insts2)
      else .ok (k, id2, insts)

/-- Method `MarkdownRenderer._lineCommands`: the matched prefix length plus the
residual text up to the next newline; the returned advance is
`matched.length + text.length + 1` (the cursor increment of the caller). -/
def lineCommands (idc : Nat) (rem : List Char) :
    Except String (Nat × Nat × List Inst × String) :=
  match lineCommandsLoop (rem.length + 1) idc rem with
  | .error e => .error e
  | .ok (m, id2, cmds) =>
    let t := (rem.drop m).takeWhile (· ≠ '\n')
    .ok (m + t.length + 1, id2, cmds, String.mk t)

/-- One iteration of the `render` loop: classify the line, reconcile the
stack, dispatch the residual text, advance the cursor. -/
def renderStep (mc : String → Bool → String) (st : RState) (rem : List Char) :
    Except String (RState × List Char) :=
  match lineCommands st.id rem with
  | .error e => .error e
  | .ok (adv, id2, cmds, text) =>
    let st1 := reconcile mc cmds { st with id := id2 }
    let st2 := onTextLineDispatch mc st1 text
    .ok (st2, rem.drop adv)

/-- The `while (cursor < input.length)` loop of `render`.  Fuel: every
iteration advances the cursor by at least one character (see
`renderStep_progress`), so `input.length + 1` iterations always suffice. -/
def renderLoop (mc : String → Bool → String) : Nat → RState → List Char → Except String RState
  | 0, st, _ => .ok st
  | f + 1, st, rem =>
    if rem = [] then .ok st
    else
      match renderStep mc st rem with
      | .error e => .error e
      | .ok (st2, rem2) => renderLoop mc f st2 rem2

/-- Method `MarkdownRenderer.render` followed by the final `_diffCommands([])` that
drains the stack; the `html()` accessor reads the `html` field of the result. -/
def render (mc : String → Bool → String) (input : String) : Except String RState :=
  match renderLoop mc (input.data.length + 1) ⟨0, "", []⟩ input.data with
  | .error e => .error e
  | .ok st => .ok (popN mc st.stack.length st)

/-- An arbitrary instantiation of the out-of-scope MathJax collaborator
`render_math(formula, display)`; the concrete inputs used in the theorems
below contain no math delimiters, so it is never invoked on them. -/
def mc0 : String → Bool → String := fun s _ => s

/-! ### General lemmas about the embedding -/

/-- A line is blank when every character before its newline is `[^\S\n]`. -/
def wsOnlyLine (l : List Char) : Bool :=
  (l.takeWhile (fun c => c ≠ '\n')).all isLineWs

theorem drop_len_takeWhile (p : Char → Bool) (l : List Char) :
    l.drop ((l.takeWhile p).length) = l.dropWhile p := by
  induction l with
  | nil => simp
  | cons c t ih =>
    by_cases h : p c
    · simp [List.takeWhile_cons_of_pos h, List.dropWhile_cons_of_pos h, ih]
    · simp [List.takeWhile_cons_of_neg h, List.dropWhile_cons_of_neg h]

theorem isLineWs_ne_newline {c : Char} (hc : isLineWs c = true) : c ≠ '\n' := by
  simp [isLineWs] at hc
  exact hc.2

theorem wsOnly_cons {c : Char} {t : List Char} (hc : isLineWs c = true)
    (h : wsOnlyLine (c :: t) = true) : wsOnlyLine t = true := by
  have hne : c ≠ '\n' := isLineWs_ne_newline hc
  simp [wsOnlyLine, List.takeWhile_cons, hne] at h ⊢
  exact h.2

theorem wsOnly_head {c : Char} {t : List Char} (h : wsOnlyLine (c :: t) = true)
    (hne : c ≠ '\n') : isLineWs c = true := by
  simp [wsOnlyLine, List.takeWhile_cons, hne] at h
  exact h.1

/-- On a blank line, after the maximal `[^\S\n]*` run the input is exhausted
or shows the line's newline. -/
theorem ws_after {l : List Char} (h : wsOnlyLine l = true) :
    (l.dropWhile isLineWs).head? = none ∨ (l.dropWhile isLineWs).head? = some '\n' := by
  induction l with
  | nil => simp
  | cons c t ih =>
    by_cases hc : isLineWs c
    · rw [List.dropWhile_cons_of_pos hc]
      exact ih (wsOnly_cons hc h)
    · rw [List.dropWhile_cons_of_neg hc]
      by_cases hne : c = '\n'
      · right; simp [hne]
      · exact absurd (wsOnly_head h hne) hc

theorem ws_after' {l : List Char} (h : wsOnlyLine l = true) :
    l.dropWhile isLineWs = [] ∨ ∃ t, l.dropWhile isLineWs = '\n' :: t := by
  rcases ws_after h with h1 | h1
  · left
    exact List.head?_eq_none_iff.mp h1
  · right
    exact List.head?_eq_some_iff.mp h1

theorem matchCheckbox_ws {l : List Char} (h : wsOnlyLine l = true) :
    matchCheckbox l = none := by
  rcases ws_after' h with h1 | ⟨t, h1⟩ <;>
    simp [matchCheckbox, drop_len_takeWhile, h1]

theorem matchBlockquote_ws {l : List Char} (h : wsOnlyLine l = true) :
    matchBlockquote l = none := by
  rcases ws_after' h with h1 | ⟨t, h1⟩ <;>
    simp [matchBlockquote, drop_len_takeWhile, h1]

theorem matchHr_ws {l : List Char} (h : wsOnlyLine l = true) :
    matchHr l = none := by
  rcases ws_after' h with h1 | ⟨t, h1⟩ <;>
    simp [matchHr, drop_len_takeWhile, h1]

theorem matchPage_ws {l : List Char} (h : wsOnlyLine l = true) :
    matchPage l = none := by
  rcases ws_after' h with h1 | ⟨t, h1⟩ <;>
    simp [matchPage, drop_len_takeWhile, h1]

theorem matchTable_ws {l : List Char} (h : wsOnlyLine l = true) :
    matchTable l = none := by
  rcases ws_after' h with h1 | ⟨t, h1⟩ <;>
    simp [matchTable, drop_len_takeWhile, h1]

theorem matchCode_ws {l : List Char} (h : wsOnlyLine l = true) :
    matchCode l = none := by
  rcases ws_after' h with h1 | ⟨t, h1⟩ <;>
    simp [matchCode, drop_len_takeWhile, h1]

theorem matchMath_ws {l : List Char} (h : wsOnlyLine l = true) :
    matchMath l = none := by
  rcases ws_after' h with h1 | ⟨t, h1⟩ <;>
    simp [matchMath, drop_len_takeWhile, h1]

theorem matchHeading_ws {l : List Char} (h : wsOnlyLine l = true) :
    matchHeading l = none := by
  rcases ws_after' h with h1 | ⟨t, h1⟩ <;>
    simp [matchHeading, drop_len_takeWhile, h1]

theorem matchParagraph_ws {l : List Char} (h : wsOnlyLine l = true) :
    matchParagraph l = none := by
  rcases ws_after' h with h1 | ⟨t, h1⟩ <;>
    simp [matchParagraph, drop_len_takeWhile, h1, tryAlignCand, candColon, candBare,
      alignAlts, lookNonWs, isJsWs]

theorem repsLenF_ws {f : Nat} : ∀ {l : List Char}, wsOnlyLine l = true →
    wsOnlyLine (l.drop (repsLenF f l)) = true := by
  induction f with
  | zero => intro l h; simpa using h
  | succ f ih =>
    intro l h
    rw [repsLenF]
    split_ifs with h5 h4
    · exfalso
      have e : l = [':', ' ', ' ', ' ', ' '] ++ l.drop 5 := by
        conv_lhs => rw [← List.take_append_drop 5 l]
        rw [h5]
      rw [e] at h
      have := wsOnly_head h (by decide)
      simp [isLineWs, isJsWs] at this
    · have e : l = [' ', ' ', ' ', ' '] ++ l.drop 4 := by
        conv_lhs => rw [← List.take_append_drop 4 l]
        rw [h4]
      rw [e] at h
      have h1 := wsOnly_cons (by decide) h
      have h2 := wsOnly_cons (by decide) h1
      have h3 := wsOnly_cons (by decide) h2
      have hd := wsOnly_cons (by decide) h3
      rw [← List.drop_drop]
      exact ih hd
    · simpa using h

theorem matchListItem_ws {l : List Char} (h : wsOnlyLine l = true) :
    matchListItem l = none := by
  have hd : wsOnlyLine (l.drop (repsLen l)) = true := repsLenF_ws h
  rcases ws_after' hd with h1 | ⟨t, h1⟩ <;>
  · simp only [matchListItem]
    rw [drop_len_takeWhile, h1]
    simp

theorem scanOnce_ws {idc : Nat} {l : List Char} (h : wsOnlyLine l = true) :
    scanOnce idc l = .ok none := by
  rw [scanOnce, matchCheckbox_ws h, matchBlockquote_ws h, matchHr_ws h,
    matchListItem_ws h, matchTable_ws h, matchCode_ws h, matchPage_ws h,
    matchMath_ws h, matchHeading_ws h, matchParagraph_ws h]

theorem lineCommands_ws {idc : Nat} {l : List Char} (h : wsOnlyLine l = true) :
    lineCommands idc l =
      .ok ((l.takeWhile (fun c => c ≠ '\n')).length + 1, idc, [],
        String.mk (l.takeWhile (fun c => c ≠ '\n'))) := by
  rw [lineCommands, lineCommandsLoop, scanOnce_ws h]
  simp

theorem renderText_stack (mc : String → Bool → String) (e : Bool) (t : String) (st : RState) :
    (renderText mc e t st).stack = st.stack := rfl

theorem renderText_id (mc : String → Bool → String) (e : Bool) (t : String) (st : RState) :
    (renderText mc e t st).id = st.id := rfl

theorem renderTable_stack (mc : String → Bool → String) (st : RState) (rows : List String) :
    (renderTable mc st rows).1.stack = st.stack := by
  simp only [renderTable]
  split
  · rfl
  · split
    · rfl
    · split <;> rfl

theorem renderTable_id (mc : String → Bool → String) (st : RState) (rows : List String) :
    (renderTable mc st rows).1.id = st.id := by
  simp only [renderTable]
  split
  · rfl
  · split
    · rfl
    · split <;> rfl

theorem tableOnEnd_stack (mc : String → Bool → String) (rows : List String) (st : RState) :
    (tableOnEnd mc rows st).stack = st.stack := by
  rw [tableOnEnd]
  split_ifs
  · exact renderTable_stack mc st rows
  · simp [renderText_stack]

theorem tableOnEnd_id (mc : String → Bool → String) (rows : List String) (st : RState) :
    (tableOnEnd mc rows st).id = st.id := by
  rw [tableOnEnd]
  split_ifs
  · exact renderTable_id mc st rows
  · simp [renderText_id]

theorem onEndEffect_stack (mc : String → Bool → String) (inst : Inst) (st : RState) :
    (onEndEffect mc inst st).stack = st.stack := by
  rw [onEndEffect]
  rcases inst with ⟨ty, s⟩
  rcases ty <;> rcases s <;> simp [renderText_stack, tableOnEnd_stack]

theorem onEndEffect_id (mc : String → Bool → String) (inst : Inst) (st : RState) :
    (onEndEffect mc inst st).id = st.id := by
  rw [onEndEffect]
  rcases inst with ⟨ty, s⟩
  rcases ty <;> rcases s <;> simp [renderText_id, tableOnEnd_id]

theorem popCommand_stack (mc : String → Bool → String) (st : RState) :
    (popCommand mc st).stack = st.stack.dropLast := by
  rw [popCommand]
  rcases h : st.stack.getLast? with _ | inst
  · rw [List.getLast?_eq_none_iff.mp h]
    rfl
  · rw [onEndEffect_stack]

theorem popCommand_id (mc : String → Bool → String) (st : RState) :
    (popCommand mc st).id = st.id := by
  rw [popCommand]
  rcases h : st.stack.getLast? with _ | inst
  · rfl
  · rw [onEndEffect_id]

/-- Draining `n ≥ |stack|` frames empties the stack. -/
theorem popN_stack_nil (mc : String → Bool → String) :
    ∀ (n : Nat) (st : RState), st.stack.length ≤ n → (popN mc n st).stack = [] := by
  intro n
  induction n with
  | zero =>
    intro st h
    simpa using List.length_eq_zero.mp (Nat.le_zero.mp h)
  | succ n ih =>
    intro st h
    rw [popN]
    apply ih
    rw [popCommand_stack, List.length_dropLast]
    omega

theorem popN_id (mc : String → Bool → String) :
    ∀ (n : Nat) (st : RState), (popN mc n st).id = st.id := by
  intro n
  induction n with
  | zero => intro st; rfl
  | succ n ih =>
    intro st
    rw [popN, ih, popCommand_id]

/-- Converse of `ws_after`: when the maximal `[^\S\n]*` run is followed by
nothing or a newline, the line is blank. -/
theorem wsOnly_of_after {l : List Char}
    (h : (l.dropWhile isLineWs).head? = none ∨ (l.dropWhile isLineWs).head? = some '\n') :
    wsOnlyLine l = true := by
  induction l with
  | nil => rfl
  | cons c t ih =>
    by_cases hc : isLineWs c
    · rw [List.dropWhile_cons_of_pos hc] at h
      have ht := ih h
      have hne : c ≠ '\n' := isLineWs_ne_newline hc
      simp [wsOnlyLine, List.takeWhile_cons, hne] at ht ⊢
      exact ⟨hc, ht⟩
    · rw [List.dropWhile_cons_of_neg hc] at h
      rcases h with h | h
      · simp at h
      · simp at h
        simp [wsOnlyLine, List.takeWhile_cons, h]

theorem matchParagraph_none_ws {l : List Char} (h : matchParagraph l = none) :
    wsOnlyLine l = true := by
  rw [matchParagraph] at h
  rw [drop_len_takeWhile] at h
  rcases hf : (tryAlignCand (l.dropWhile isLineWs)).find?
      (fun c => lookNonWs ((l.dropWhile isLineWs).drop c.1)) with _ | c
  · rw [hf] at h
    split_ifs at h with hl
    apply wsOnly_of_after
    rcases hh : (l.dropWhile isLineWs).head? with _ | c
    · left; rfl
    · right
      have hnot := List.head?_dropWhile_not isLineWs l
      rw [hh] at hnot
      simp [lookNonWs, hh] at hl
      simp [isLineWs, hl] at hnot
      rw [hnot]
  · rw [hf] at h
    simp at h
/-- Each additional indent level appends one more LIST/LIST_ITEM pair with a
fresh id, innermost last. -/
theorem listItemPairs_snoc (ordered : Bool) (idc n : Nat) :
    listItemPairs ordered idc (n + 1) =
      listItemPairs ordered idc n ++
        [⟨.list, .list ordered⟩, ⟨.listItem, .listItem (idc + n)⟩] := by
  simp [listItemPairs, List.range_succ]

theorem listItemPairs_length (ordered : Bool) (idc n : Nat) :
    (listItemPairs ordered idc n).length = 2 * n := by
  induction n with
  | zero => rfl
  | succ n ih =>
    rw [listItemPairs_snoc, List.length_append, ih]
    simp
    omega

theorem listItemPairs_ne (ordered : Bool) (idc n : Nat) (h : 1 ≤ n) :
    listItemPairs ordered idc n ≠ [] := by
  intro he
  have := congrArg List.length he
  rw [listItemPairs_length] at this
  simp at this
  omega

/-- Every branch of the registry scan contributes at least one instance. -/
theorem scanOnce_some_ne {idc : Nat} {l : List Char} {k id2 : Nat} {insts : List Inst}
    {b : Bool} (h : scanOnce idc l = .ok (some (k, id2, insts, b))) : insts ≠ [] := by
  rw [scanOnce] at h
  repeat' split at h
  all_goals (try simp_all)
  all_goals rcases h with ⟨h1, h2, h3, h4⟩
  all_goals rw [← h3]
  all_goals first
    | simp
    | exact listItemPairs_ne _ _ _ (by omega)

/-- If the registry scan produced nothing at all, even the paragraph trigger
failed. -/
theorem scanOnce_none_para {idc : Nat} {l : List Char} (h : scanOnce idc l = .ok none) :
    matchParagraph l = none := by
  rw [scanOnce] at h
  repeat' split at h
  all_goals simp_all

/-- Classification produces an empty instance list only on a blank line. -/
theorem lineCommands_nil_ws {idc : Nat} {l : List Char} {adv id2 : Nat} {txt : String}
    (h : lineCommands idc l = .ok (adv, id2, [], txt)) : wsOnlyLine l = true := by
  rw [lineCommands] at h
  rcases hs : scanOnce idc l with e | o
  · rw [lineCommandsLoop, hs] at h
    simp at h
  · rcases o with _ | ⟨k, kid2, insts, b⟩
    · exact matchParagraph_none_ws (scanOnce_none_para hs)
    · exfalso
      have hne := scanOnce_some_ne hs
      rw [lineCommandsLoop, hs] at h
      rcases hb : b with _ | _
      · rw [hb] at h
        simp at h
        exact hne h.2.2.1
      · rw [hb] at h
        simp at h
        rcases hl : lineCommandsLoop l.length kid2 (l.drop k) with e2 | ⟨m, id3, insts2⟩
        · rw [hl] at h
          simp at h
        · rw [hl] at h
          simp at h
          rcases h with ⟨h1, h2, h3, h4⟩
          exact hne h3.1

/-- The reconciler never keeps a heading frame: its continuation predicate is
constantly false. -/
theorem diffIndex_heading (s1 s2 : CmdState) (os ns : List Inst) :
    diffIndex (⟨.heading, s1⟩ :: os) (⟨.heading, s2⟩ :: ns) = 0 := by
  simp [diffIndex, isEqualToFirstB]

/-- The horizontal-rule descriptor has no continuation predicate, so the
reconciler always keeps an open hr frame against a new hr instance. -/
theorem diffIndex_hr (s1 s2 : CmdState) (os ns : List Inst) :
    diffIndex (⟨.horizontalRule, s1⟩ :: os) (⟨.horizontalRule, s2⟩ :: ns) =
      1 + diffIndex os ns := by
  simp [diffIndex, isEqualToFirstB]

theorem diffIndex_nil (s : List Inst) : diffIndex s [] = 0 := by
  cases s <;> rfl

/-- The body-row loop fails exactly when some body row's parsed cell count
differs from the header count. -/
theorem collectBody_none_iff (n : Nat) :
    ∀ rs : List String, collectBody n rs = none ↔ ∃ r ∈ rs, (bodyCells r).length ≠ n := by
  intro rs
  induction rs with
  | nil => simp [collectBody]
  | cons r rs ih =>
    rw [collectBody]
    by_cases hc : (bodyCells r).length = n
    · simp [hc, ih]
    · simp [hc]

theorem empty_append_str (s : String) : ("" ++ s) = s := by
  cases s
  rfl

theorem takeWhile_append_all {p : Char → Bool} {a : List Char} (b : List Char)
    (h : ∀ c ∈ a, p c = true) : (a ++ b).takeWhile p = a ++ b.takeWhile p := by
  induction a with
  | nil => simp
  | cons c t ih =>
    rw [List.cons_append, List.takeWhile_cons_of_pos (h c (by simp)), ih]
    · rfl
    · intro x hx
      exact h x (by simp [hx])

theorem takeWhile_hash_of_head {tc : List Char} (h4 : tc.head? ≠ some '#') :
    tc.takeWhile (· = '#') = [] := by
  cases tc with
  | nil => rfl
  | cons c t =>
    simp at h4
    exact List.takeWhile_cons_of_neg (by simpa using h4)

theorem takeWhile_ne_newline {tc : List Char} (h3 : '\n' ∉ tc) :
    tc.takeWhile (fun c => c ≠ '\n') = tc := by
  apply List.takeWhile_eq_self_iff.mpr
  intro x hx
  simp
  intro he
  exact h3 (he ▸ hx)

theorem drop_replicate_append (j m : Nat) (a : Char) (tc : List Char) (h : j ≤ m) :
    (List.replicate m a ++ tc).drop j = List.replicate (m - j) a ++ tc := by
  conv_lhs => rw [show m = j + (m - j) by omega]
  rw [List.replicate_add, List.append_assoc]
  exact List.drop_left' (by simp)

theorem getLast_replicate_ne (r : Nat) (a b : Char) (hne : a ≠ b) :
    (List.replicate r a).getLast? ≠ some b := by
  rcases r with _ | r
  · simp
  · rw [List.replicate_succ', List.getLast?_concat]
    simp [hne]

/-- The heading trigger on a line of `m ≥ 1` hashes followed by text that
contains no newline, does not itself begin with a hash and does not end in
`}`: the level group takes `min m 6` hashes and the lazy text group takes the
rest of the line (surplus hashes included); no id trailer matches. -/
theorem matchHeading_hashes (m : Nat) (tc : List Char) (hm : 1 ≤ m)
    (h3 : '\n' ∉ tc) (h4 : tc.head? ≠ some '#') (h5 : tc.getLast? ≠ some '}') :
    matchHeading (List.replicate m '#' ++ tc) =
      some (m + tc.length, min m 6, List.replicate (m - min m 6) '#' ++ tc, none) := by
  obtain ⟨m', rfl⟩ : ∃ m', m = m' + 1 := ⟨m - 1, by omega⟩
  have hcons : List.replicate (m' + 1) '#' ++ tc = '#' :: (List.replicate m' '#' ++ tc) := by
    rw [List.replicate_succ]
    rfl
  have hw : (List.replicate (m' + 1) '#' ++ tc).takeWhile isLineWs = [] := by
    rw [hcons]
    exact List.takeWhile_cons_of_neg (by decide)
  have hh : (List.replicate (m' + 1) '#' ++ tc).takeWhile (· = '#') =
      List.replicate (m' + 1) '#' := by
    rw [takeWhile_append_all tc (by intro c hc; simp_all [List.eq_of_mem_replicate hc]),
      takeWhile_hash_of_head h4, List.append_nil]
  have hmin : min (m' + 1) 6 ≤ m' + 1 := Nat.min_le_left _ _
  have hdropn : (List.replicate (m' + 1) '#' ++ tc).drop (min (m' + 1) 6) =
      List.replicate (m' + 1 - min (m' + 1) 6) '#' ++ tc :=
    drop_replicate_append _ _ _ _ hmin
  have hrest : ((List.replicate (m' + 1) '#' ++ tc).drop (min (m' + 1) 6)).takeWhile
      (fun c => c ≠ '\n') = List.replicate (m' + 1 - min (m' + 1) 6) '#' ++ tc := by
    rw [hdropn, takeWhile_append_all tc
        (by intro c hc; simp_all [List.eq_of_mem_replicate hc]),
      takeWhile_ne_newline h3]
  have hlast : (List.replicate (m' + 1 - min (m' + 1) 6) '#' ++ tc).getLast? ≠ some '}' := by
    rw [List.getLast?_append]
    rcases htc : tc.getLast? with _ | v
    · simpa [htc] using getLast_replicate_ne (m' + 1 - min (m' + 1) 6) '#' '}' (by decide)
    · rw [htc] at h5
      simpa [htc] using fun he => h5 (by rw [he])
  rw [matchHeading]
  rw [hw]
  simp only [List.length_nil, List.drop_zero]
  rw [hh]
  simp only [List.length_replicate]
  rw [if_neg (by omega)]
  rw [hrest]
  rw [if_neg (by intro hc; exact hlast hc.1)]
  simp [List.length_append, List.length_replicate]
  omega

theorem matchCheckbox_hash (x : List Char) : matchCheckbox ('#' :: x) = none := by
  simp +decide [matchCheckbox, List.takeWhile_cons]

theorem matchBlockquote_hash (x : List Char) : matchBlockquote ('#' :: x) = none := by
  simp +decide [matchBlockquote, List.takeWhile_cons]

theorem matchHr_hash (x : List Char) : matchHr ('#' :: x) = none := by
  simp +decide [matchHr, List.takeWhile_cons]

theorem matchPage_hash (x : List Char) : matchPage ('#' :: x) = none := by
  simp +decide [matchPage, List.takeWhile_cons]

theorem matchTable_hash (x : List Char) : matchTable ('#' :: x) = none := by
  simp +decide [matchTable, List.takeWhile_cons]

theorem matchCode_hash (x : List Char) : matchCode ('#' :: x) = none := by
  simp +decide [matchCode, List.takeWhile_cons]

theorem matchMath_hash (x : List Char) : matchMath ('#' :: x) = none := by
  simp +decide [matchMath, List.takeWhile_cons]

theorem repsLenF_hash (f : Nat) (x : List Char) : repsLenF f ('#' :: x) = 0 := by
  cases f with
  | zero => rfl
  | succ f => simp +decide [repsLenF]

theorem matchListItem_hash (x : List Char) : matchListItem ('#' :: x) = none := by
  simp +decide [matchListItem, repsLen, repsLenF_hash, List.takeWhile_cons]

/-- On a hash-headed line only the heading trigger fires, and the scan
produces the single heading instance with the captured level and text. -/
theorem scanOnce_hash (idc m : Nat) (tc : List Char) (hm : 1 ≤ m)
    (h3 : '\n' ∉ tc) (h4 : tc.head? ≠ some '#') (h5 : tc.getLast? ≠ some '}') :
    scanOnce idc (List.replicate m '#' ++ tc) =
      .ok (some (m + tc.length, idc,
        [⟨.heading, .heading (min m 6)
          (String.mk (List.replicate (m - min m 6) '#' ++ tc)) none⟩], false)) := by
  have hL : List.replicate m '#' ++ tc = '#' :: (List.replicate (m - 1) '#' ++ tc) := by
    conv_lhs => rw [show m = 1 + (m - 1) by omega]
    rw [List.replicate_add]
    rfl
  have e1 : matchCheckbox (List.replicate m '#' ++ tc) = none := by
    rw [hL]; exact matchCheckbox_hash _
  have e2 : matchBlockquote (List.replicate m '#' ++ tc) = none := by
    rw [hL]; exact matchBlockquote_hash _
  have e3 : matchHr (List.replicate m '#' ++ tc) = none := by
    rw [hL]; exact matchHr_hash _
  have e4 : matchListItem (List.replicate m '#' ++ tc) = none := by
    rw [hL]; exact matchListItem_hash _
  have e5 : matchTable (List.replicate m '#' ++ tc) = none := by
    rw [hL]; exact matchTable_hash _
  have e6 : matchCode (List.replicate m '#' ++ tc) = none := by
    rw [hL]; exact matchCode_hash _
  have e7 : matchPage (List.replicate m '#' ++ tc) = none := by
    rw [hL]; exact matchPage_hash _
  have e8 : matchMath (List.replicate m '#' ++ tc) = none := by
    rw [hL]; exact matchMath_hash _
  rw [scanOnce, e1, e2, e3, e4, e5, e6, e7, e8,
    matchHeading_hashes m tc hm h3 h4 h5]
  rfl

theorem renderLoop_nil (mc : String → Bool → String) (f : Nat) (st : RState) :
    renderLoop mc f st [] = .ok st := by
  cases f <;> simp [renderLoop]

theorem drop_all_takeWhile_nil (l : List Char) {n : Nat} (h : l.length ≤ n) :
    (l.drop n).takeWhile (fun c => c ≠ '\n') = [] := by
  rw [List.drop_eq_nil_of_le h]
  rfl

/-- Line classification of a hash-headed line: a single heading instance, no
residual text, and a cursor advance of the whole line plus one. -/
theorem lineCommands_hash (idc m : Nat) (tc : List Char) (hm : 1 ≤ m)
    (h3 : '\n' ∉ tc) (h4 : tc.head? ≠ some '#') (h5 : tc.getLast? ≠ some '}') :
    lineCommands idc (List.replicate m '#' ++ tc) =
      .ok (m + tc.length + 1, idc,
        [⟨.heading, .heading (min m 6)
          (String.mk (List.replicate (m - min m 6) '#' ++ tc)) none⟩], ("")) := by
  rw [lineCommands, lineCommandsLoop, scanOnce_hash idc m tc hm h3 h4 h5]
  have hnil : (List.replicate m '#' ++ tc).drop (m + tc.length) = [] :=
    List.drop_eq_nil_of_le (by simp)
  simp [hnil]

/-- Rendering a one-line hash-headed input: the heading opens, absorbs no
text, and the final drain emits exactly one `h<n>` element. -/
theorem render_hash (mc : String → Bool → String) (m : Nat) (tc : List Char) (hm : 1 ≤ m)
    (h3 : '\n' ∉ tc) (h4 : tc.head? ≠ some '#') (h5 : tc.getLast? ≠ some '}') :
    render mc (String.mk (List.replicate m '#' ++ tc)) =
      .ok ⟨0, headingCloseHtml mc (min m 6)
        (String.mk (List.replicate (m - min m 6) '#' ++ tc)) none, []⟩ := by
  have hne : (List.replicate m '#' ++ tc) ≠ [] := by
    simp [List.append_eq_nil]
    intro hrep
    omega
  have hdropnil : (List.replicate m '#' ++ tc).drop (m + tc.length + 1) = [] :=
    List.drop_eq_nil_of_le (by simp)
  rw [render]
  show (match renderLoop mc ((List.replicate m '#' ++ tc).length + 1) ⟨0, "", []⟩
      (List.replicate m '#' ++ tc) with
    | Except.error e => Except.error e
    | Except.ok st => Except.ok (popN mc st.stack.length st)) = _
  rw [renderLoop]
  rw [if_neg hne]
  rw [renderStep, lineCommands_hash 0 m tc hm h3 h4 h5]
  simp only [reconcile, diffIndex, popN, onTextLineDispatch, pushCommand, onStartHtml,
    hdropnil, List.foldl, renderLoop_nil]
  simp [popN, popCommand, onEndEffect, empty_append_str]

theorem inlineMathPass_none {mc : String → Bool → String} {f : Nat} {l : List Char}
    (h : findMathMatch l = none) : inlineMathPass mc f l = l := by
  cases f <;> simp [inlineMathPass, h]

theorem lineCommands_adv_pos {idc : Nat} {l : List Char} {adv id2 : Nat}
    {cmds : List Inst} {txt : String}
    (h : lineCommands idc l = .ok (adv, id2, cmds, txt)) : 1 ≤ adv := by
  rw [lineCommands] at h
  rcases hp : lineCommandsLoop (l.length + 1) idc l with e | ⟨m, mid, cm⟩
  · rw [hp] at h
    simp at h
  · rw [hp] at h
    simp at h
    omega

/-- Every iteration of the render loop advances the cursor by at least one
character: the advance is `matched.length + text.length + 1`. -/
theorem renderStep_progress (mc : String → Bool → String) (st : RState)
    {rem : List Char} {st2 : RState} {rem2 : List Char} (hne : rem ≠ [])
    (h : renderStep mc st rem = .ok (st2, rem2)) : rem2.length < rem.length := by
  rw [renderStep] at h
  rcases hl : lineCommands st.id rem with e | ⟨adv, id2, cmds, txt⟩
  · rw [hl] at h
    simp at h
  · rw [hl] at h
    simp at h
    have hadv := lineCommands_adv_pos hl
    have h2 : rem2 = rem.drop adv := h.2.symm
    rw [h2, List.length_drop]
    have h3 : 1 ≤ rem.length := by
      cases rem with
      | nil => exact absurd rfl hne
      | cons c t => simp
    omega

/-! ### Claim theorems -/

/-- Claim C1 (amended): the heading continuation predicate is constantly
false, so consecutive heading lines always close the old instance and open a
fresh one (two consecutive heading lines emit two separate h-elements); but
the horizontal-rule descriptor has NO continuation predicate, so the
reconciler keeps the previously opened hr instance across consecutive
hr-triggering lines and a run of consecutive `---` lines emits a single hr
element rather than one per line. -/
theorem c1_theorem :
    (∀ (s1 s2 : CmdState) (os ns : List Inst),
      diffIndex (⟨.heading, s1⟩ :: os) (⟨.heading, s2⟩ :: ns) = 0) ∧
    (∀ (s1 s2 : CmdState) (os ns : List Inst),
      diffIndex (⟨.horizontalRule, s1⟩ :: os) (⟨.horizontalRule, s2⟩ :: ns) =
        1 + diffIndex os ns) ∧
    render mc0 ("# a\n# b") = .ok ⟨0, ("<h1>\n a\n</h1>\n<h1>\n b\n</h1>\n"), []⟩ :=
  ⟨diffIndex_heading, diffIndex_hr, by rfl⟩

/-- Claim C1 counterexample: two consecutive lines of three dashes emit ONE
`<hr/>` element, not two — the open hr frame of the first line is kept by the
reconciler when the second line re-triggers the command, so only the final
stack drain emits the rule. -/
theorem c1_counterexample :
    render mc0 ("---\n---") = .ok ⟨0, ("<hr/>\n"), []⟩ := by
  rfl

/-- Claim C2 (amended): classification produces an empty instance list only
for a blank (whitespace-only) line — a line with any non-whitespace content
always matches some trigger (at worst the paragraph trigger), even when the
innermost open frame is a list item.  The concrete render shows that an
indented text line after a list item closes the list and opens a fresh
paragraph instead of continuing the item. -/
theorem c2_theorem :
    (∀ (idc : Nat) (l : List Char) (adv id2 : Nat) (txt : String),
      lineCommands idc l = .ok (adv, id2, ([] : List Inst), txt) → wsOnlyLine l = true) ∧
    render mc0 ("- a\n    b") =
      .ok ⟨1, ("<ul>\n<li>\na\n</li>\n</ul>\n<p style=\"text-align: left;\">\nb\n\n</p>\n"),
        []⟩ :=
  ⟨fun _ _ _ _ _ h => lineCommands_nil_ws h, by rfl⟩

/-- Claim C2 witness: a line of a space and a tab classifies to no instances,
and the theorem concludes it is whitespace-only. -/
theorem c2_witness : wsOnlyLine (' ' :: '\t' :: '\n' :: 'a' :: []) = true :=
  c2_theorem.1 0 (' ' :: '\t' :: '\n' :: 'a' :: []) 3 0 (" \t") (by rfl)

/-- Claim C2 counterexample: the indented text line `    b` after a list item
does NOT classify as a continuation of the open `[LIST, LIST_ITEM]` stack —
it produces a fresh PARAGRAPH instance, and reconciling it against the open
list stack closes the list item and the list. -/
theorem c2_counterexample :
    lineCommands 1 ("    b".data) =
      .ok (6, 1, [⟨.paragraph, .paragraph ("") none⟩], ("b")) ∧
    reconcile mc0 [⟨.paragraph, .paragraph ("") none⟩]
        ⟨1, (""), [⟨.list, .list false⟩, ⟨.listItem, .listItem 0⟩]⟩ =
      ⟨1, ("</li>\n</ul>\n"), [⟨.paragraph, .paragraph ("") none⟩]⟩ :=
  ⟨by rfl, by rfl⟩

/-- Claim C4 (code bug): `render` is NOT exception-free.  The list-item
trigger regex `((:? {4})*)` contains `(:?` (an optional literal colon) where
`(?:` was clearly intended, so the line `:    - x` matches with
`match[1] = ':    '` of length 5; `onMatch` computes `indent = 5 / 4 = 1.25`
and `[...Array(indent + 1)]` throws `RangeError: Invalid array length`.
The cursor-progress half of the claim does hold: every loop iteration that
succeeds advances the cursor by at least one character. -/
theorem c4_theorem :
    render mc0 (":    - x") = .error ("Invalid array length") ∧
    matchListItem (":    - x".data) = some (7, 5, false) ∧
    (∀ (mc : String → Bool → String) (st : RState) (rem : List Char)
      (st2 : RState) (rem2 : List Char),
      rem ≠ [] → renderStep mc st rem = .ok (st2, rem2) → rem2.length < rem.length) :=
  ⟨by rfl, by rfl, fun mc st rem st2 rem2 hne h => renderStep_progress mc st hne h⟩

/-- Claim C4 witness: the progress conjunct applied to the one-character
input `x`, whose render step consumes the whole input. -/
theorem c4_witness : (([] : List Char)).length < ("x".data).length :=
  c4_theorem.2.2 mc0 ⟨0, (""), []⟩ ("x".data)
    ⟨0, (""), [⟨.paragraph, .paragraph ("x\n") none⟩]⟩ [] (by simp) (by rfl)

/-- Claim C5 (amended): for n in 1..6 a line of exactly n `#` characters
directly followed by text (no newline, not itself starting with `#`, no
trailing `}` id trailer) triggers the heading command at level n and renders
an `h<n>` element wrapping the inline-rendered text (the raw wrapped text
keeps its surrounding whitespace; the project's DOM normalization trims it to
the claimed trimmed text); but a line beginning with 7 or more `#` characters
DOES trigger a heading: the level group captures only six hashes (level 6)
and the surplus `#` characters stay in the heading text. -/
theorem c5_theorem (mc : String → Bool → String) (n : Nat) (tc : List Char)
    (h1 : 1 ≤ n) (h2 : n ≤ 6) (h3 : '\n' ∉ tc) (h4 : tc.head? ≠ some '#')
    (h5 : tc.getLast? ≠ some '}') :
    matchHeading (List.replicate n '#' ++ tc) = some (n + tc.length, n, tc, none) ∧
    render mc (String.mk (List.replicate n '#' ++ tc)) =
      .ok ⟨0, headingCloseHtml mc n (String.mk tc) none, []⟩ ∧
    (∀ k, 7 ≤ k → matchHeading (List.replicate k '#' ++ tc) =
      some (k + tc.length, 6, List.replicate (k - 6) '#' ++ tc, none)) := by
  have hmin : min n 6 = n := Nat.min_eq_left h2
  refine ⟨?_, ?_, ?_⟩
  · have hx := matchHeading_hashes n tc h1 h3 h4 h5
    rw [hmin] at hx
    simpa using hx
  · have hx := render_hash mc n tc h1 h3 h4 h5
    rw [hmin] at hx
    simpa using hx
  · intro k hk
    have hx := matchHeading_hashes k tc (by omega) h3 h4 h5
    rw [Nat.min_eq_right (by omega)] at hx
    exact hx

/-- Claim C5 witness: `###abc` renders an h3 wrapping `abc`. -/
theorem c5_witness :
    render mc0 ("###abc") = .ok ⟨0, headingCloseHtml mc0 3 ("abc") none, []⟩ :=
  (c5_theorem mc0 3 ('a' :: 'b' :: 'c' :: []) (by decide) (by decide) (by decide)
    (by decide) (by decide)).2.1

/-- Claim C5 counterexample: a line of seven `#` characters followed by text
DOES trigger a heading — it renders an h6 whose text keeps the seventh `#`,
contradicting the claim that 7+ hashes trigger no heading. -/
theorem c5_counterexample :
    render mc0 ("#######x") = .ok ⟨0, ("<h6>\n#x\n</h6>\n"), []⟩ := by
  rfl

/-- Claim C6: the five-line nested-list input renders three nested `ul`
levels with `c` in the deepest, two items at depth 0 (`a`, `e`), two at
depth 1 (`b`, `d`), one at depth 2 (`c`); each list-marker line pushes one
LIST/LIST_ITEM pair per 4-space indent level (two frames per level), with
the innermost pair appended last carrying a fresh id. -/
theorem c6_theorem :
    render mc0 ("- a\n    - b\n        - c\n    - d\n- e") =
      .ok ⟨9, ("<ul>\n<li>\na\n<ul>\n<li>\nb\n<ul>\n<li>\nc\n</li>\n</ul>\n</li>\n" ++
        "<li>\nd\n</li>\n</ul>\n</li>\n<li>\ne\n</li>\n</ul>\n"), []⟩ ∧
    (∀ (ordered : Bool) (idc n : Nat), (listItemPairs ordered idc n).length = 2 * n) ∧
    (∀ (ordered : Bool) (idc n : Nat),
      listItemPairs ordered idc (n + 1) =
        listItemPairs ordered idc n ++
          [⟨.list, .list ordered⟩, ⟨.listItem, .listItem (idc + n)⟩]) :=
  ⟨by rfl, listItemPairs_length, listItemPairs_snoc⟩

/-- Claim C7: a line classified onto an open paragraph continues it exactly
when the new line's alignment marker is absent or equal to the open
paragraph's alignment; a different marker closes the open paragraph (its
`onEnd` emits the styled `p`) and opens the fresh instance, while a matching
or absent marker keeps the open instance untouched. -/
theorem c7_theorem (mc : String → Bool → String) (idv : Nat) (h0 : String)
    (t0 tn : String) (ao an : Option TextAlignment) :
    (diffIndex [⟨.paragraph, .paragraph t0 ao⟩] [⟨.paragraph, .paragraph tn an⟩] =
      (if an = none ∨ an = ao then 1 else 0)) ∧
    ((an = none ∨ an = ao) →
      reconcile mc [⟨.paragraph, .paragraph tn an⟩]
          ⟨idv, h0, [⟨.paragraph, .paragraph t0 ao⟩]⟩ =
        ⟨idv, h0, [⟨.paragraph, .paragraph t0 ao⟩]⟩) ∧
    (¬(an = none ∨ an = ao) →
      reconcile mc [⟨.paragraph, .paragraph tn an⟩]
          ⟨idv, h0, [⟨.paragraph, .paragraph t0 ao⟩]⟩ =
        ⟨idv, h0 ++ paragraphCloseHtml mc t0 ao, [⟨.paragraph, .paragraph tn an⟩]⟩) := by
  have hpred : isEqualToFirstB .paragraph (.paragraph tn an)
      [⟨.paragraph, .paragraph t0 ao⟩] [⟨.paragraph, .paragraph tn an⟩] =
      (an = none ∨ an = ao : Bool) := by
    rcases an with _ | a <;> rcases ao with _ | b <;>
      simp [isEqualToFirstB, eq_comm]
  have hdiff : diffIndex [⟨.paragraph, .paragraph t0 ao⟩] [⟨.paragraph, .paragraph tn an⟩] =
      (if an = none ∨ an = ao then 1 else 0) := by
    rw [diffIndex]
    rw [if_neg (by simp)]
    by_cases hc : an = none ∨ an = ao
    · rw [if_neg (by simp [hpred, hc]), if_pos hc]
      rfl
    · rw [if_pos (by simp [hpred, hc]), if_neg hc]
  refine ⟨hdiff, ?_, ?_⟩
  · intro hc
    rw [reconcile, hdiff, if_pos hc]
    rfl
  · intro hc
    rw [reconcile, hdiff, if_neg hc]
    simp only [List.length_cons, List.length_nil, Nat.sub_zero, List.drop_zero]
    show pushCommand (popN mc 1 ⟨idv, h0, [⟨.paragraph, .paragraph t0 ao⟩]⟩)
        ⟨.paragraph, .paragraph tn an⟩ = _
    simp [popN, popCommand, onEndEffect, pushCommand, onStartHtml]

/-- Claim C7 witness: a matching marker keeps the open paragraph untouched; a
different committed marker closes it and opens the new instance. -/
theorem c7_witness :
    reconcile mc0 [⟨.paragraph, .paragraph ("u") (some TextAlignment.center)⟩]
        ⟨0, (""), [⟨.paragraph, .paragraph ("t") (some TextAlignment.center)⟩]⟩ =
      ⟨0, (""), [⟨.paragraph, .paragraph ("t") (some TextAlignment.center)⟩]⟩ ∧
    reconcile mc0 [⟨.paragraph, .paragraph ("u") (some TextAlignment.left)⟩]
        ⟨0, (""), [⟨.paragraph, .paragraph ("t") (some TextAlignment.center)⟩]⟩ =
      ⟨0, ("") ++ paragraphCloseHtml mc0 ("t") (some TextAlignment.center),
        [⟨.paragraph, .paragraph ("u") (some TextAlignment.left)⟩]⟩ :=
  ⟨(c7_theorem mc0 0 ("") ("t") ("u") (some TextAlignment.center)
      (some TextAlignment.center)).2.1 (Or.inr rfl),
   (c7_theorem mc0 0 ("") ("t") ("u") (some TextAlignment.center)
      (some TextAlignment.left)).2.2 (by simp)⟩

set_option maxRecDepth 8000 in
/-- Claim C8: the two checkbox lines render two independent input+label
pairs, the label's `for` referencing its own input's id, with strictly
increasing ids 0 and 1 (never reused or decremented: `uniqueId` returns the
counter and increments it), the first unchecked, the second checked, each
followed by a `<br>`. -/
theorem c8_theorem :
    render mc0 ("- [ ] x\n- [x] y") =
      .ok ⟨2, ("<input id=\"input_checkbox_0\" type=\"checkbox\" />\n" ++
        "<label for=\"input_checkbox_0\">\nx\n</label>\n<br>\n" ++
        "<input id=\"input_checkbox_1\" type=\"checkbox\" checked/>\n" ++
        "<label for=\"input_checkbox_1\">\ny\n</label>\n<br>\n"), []⟩ ∧
    (∀ i : Nat, uniqueId i = (i, i + 1)) :=
  ⟨by rfl, fun _ => rfl⟩

/-- Claim C9: the inline transformer turns `**bold *and* italic**` into a
bold wrapper containing `bold `, a nested italic wrapping `and`, and
` italic` — the `**` substitution runs before the `*` substitution, so the
double-asterisk span is never split into two single-asterisk spans. -/
theorem c9_theorem (mc : String → Bool → String) (st : RState) :
    inlineTransform mc ("**bold *and* italic**") = ("<b>bold <i>and</i> italic</b>") ∧
    renderText mc false ("**bold *and* italic**") st =
      { st with html := st.html ++ ("<b>bold <i>and</i> italic</b>") ++ "\n" } := by
  have himg : renderImagesLoop (("**bold *and* italic**").data.length + 1)
      ("**bold *and* italic**").data = ("**bold *and* italic**").data := by rfl
  have hit : inlineTransform mc ("**bold *and* italic**") =
      ("<b>bold <i>and</i> italic</b>") := by
    simp only [inlineTransform]
    rw [himg]
    rw [inlineMathPass_none (by rfl)]
    rfl
  exact ⟨hit, by simp [renderText, hit]⟩

/-- Claim C10: a line with no non-whitespace character matches no command
trigger, so the reconciler pops every open frame: after the step the open
stack is empty (the id counter untouched), and classification indeed returned
the empty instance list. -/
theorem c10_theorem (mc : String → Bool → String) (st : RState) (rem : List Char)
    (h : wsOnlyLine rem = true) :
    lineCommands st.id rem =
      .ok ((rem.takeWhile (fun c => c ≠ '\n')).length + 1, st.id, [],
        String.mk (rem.takeWhile (fun c => c ≠ '\n'))) ∧
    renderStep mc st rem =
      .ok (popN mc st.stack.length st,
        rem.drop ((rem.takeWhile (fun c => c ≠ '\n')).length + 1)) ∧
    (popN mc st.stack.length st).stack = [] ∧
    (popN mc st.stack.length st).id = st.id := by
  have hstack := popN_stack_nil mc st.stack.length st le_rfl
  refine ⟨lineCommands_ws h, ?_, hstack, popN_id mc _ st⟩
  rw [renderStep, lineCommands_ws h]
  simp [reconcile, diffIndex_nil, onTextLineDispatch, hstack]

/-- Claim C10 witness: a blank line processed against an open blockquote
frame leaves an empty stack. -/
theorem c10_witness :
    (popN mc0 ((⟨5, ("h"), [⟨.blockquote, .blockquote⟩]⟩ : RState)).stack.length
      ⟨5, ("h"), [⟨.blockquote, .blockquote⟩]⟩).stack = [] :=
  (c10_theorem mc0 ⟨5, ("h"), [⟨.blockquote, .blockquote⟩]⟩ (' ' :: '\t' :: [])
    (by decide)).2.2.1

/-- Claim C3: `renderTable` produces no table — and the TABLE close then
emits a single paragraph of the raw buffered rows joined with `<br>` —
exactly when the buffer has fewer than 2 rows, or the separator row's parsed
cell count differs from the header row's parsed cell count (after the
optional `{id}` cell is stripped), or some body row's parsed cell count
differs from the header's; otherwise the close emits the parsed table: a
header section and a body section preserving row and column order as
encountered. -/
theorem c3_theorem (mc : String → Bool → String) (st : RState) (rows : List String) :
    ((renderTable mc st rows).2 = false ↔
      (rows.length < 2 ∨
        (sepCells (rows.getD 1 (""))).length ≠ (headerCellsFinal (rows.getD 0 (""))).length ∨
        ∃ r ∈ rows.drop 2,
          (bodyCells r).length ≠ (headerCellsFinal (rows.getD 0 (""))).length)) ∧
    ((renderTable mc st rows).2 = false →
      tableOnEnd mc rows st = { st with html := st.html ++ tableFallbackHtml mc rows }) ∧
    ((renderTable mc st rows).2 = true →
      tableOnEnd mc rows st = (renderTable mc st rows).1 ∧
      ∃ body, collectBody (headerCellsFinal (rows.getD 0 (""))).length (rows.drop 2) =
          some body ∧
        (renderTable mc st rows).1 =
          { st with html := st.html ++
              (tableSuccessHtml mc (headerSplit (rows.getD 0 (""))).1
                (headerCellsFinal (rows.getD 0 ("")))
                ((sepCells (rows.getD 1 (""))).map alignOf) body) }) := by
  refine ⟨?_, ?_, ?_⟩
  · by_cases hlen : rows.length < 2
    · simp [renderTable, hlen]
    · rw [renderTable, if_neg hlen]
      by_cases hsep : (sepCells (rows.getD 1 (""))).length =
          (headerSplit (rows.getD 0 (""))).2.length
      · rw [if_neg (not_not_intro hsep)]
        rcases hb : collectBody (headerSplit (rows.getD 0 (""))).2.length (rows.drop 2)
            with _ | body
        · have hex := (collectBody_none_iff _ _).mp hb
          simp [hlen, headerCellsFinal]
          exact Or.inr (by simpa using hex)
        · have hnex : ¬ ∃ r ∈ rows.drop 2,
              (bodyCells r).length ≠ (headerSplit (rows.getD 0 (""))).2.length := by
            intro hex
            rw [← collectBody_none_iff] at hex
            rw [hb] at hex
            simp at hex
          simp [hlen, headerCellsFinal]
          refine ⟨by simpa using hsep, ?_⟩
          intro r hr
          by_contra hne
          exact hnex ⟨r, hr, by simpa using hne⟩
      · rw [if_pos hsep]
        simp [hlen, headerCellsFinal]
        exact Or.inl (by simpa using hsep)
  · intro hf
    rw [tableOnEnd]
    simp [hf]
  · intro ht
    refine ⟨by rw [tableOnEnd]; simp [ht], ?_⟩
    rw [renderTable] at ht ⊢
    by_cases hlen : rows.length < 2
    · rw [if_pos hlen] at ht
      simp at ht
    · rw [if_neg hlen] at ht ⊢
      by_cases hsep : (sepCells (rows.getD 1 (""))).length =
          (headerSplit (rows.getD 0 (""))).2.length
      · rw [if_neg (not_not_intro hsep)] at ht ⊢
        rcases hb : collectBody (headerSplit (rows.getD 0 (""))).2.length (rows.drop 2)
            with _ | body
        · rw [hb] at ht
          simp at ht
        · exact ⟨body, hb, rfl⟩
      · rw [if_pos hsep] at ht
        simp at ht

/-- Claim C3 witness: a 2-row buffer whose separator row has one cell more
than the header demotes to the raw-rows paragraph, while the spec's
header/separator/body example renders as a table. -/
theorem c3_witness :
    tableOnEnd mc0 (("|a|") :: ("|--|--|") :: []) ⟨0, (""), []⟩ =
      { (⟨0, (""), []⟩ : RState) with
        html := ("") ++ tableFallbackHtml mc0 (("|a|") :: ("|--|--|") :: []) } ∧
    tableOnEnd mc0 (("|a|b") :: ("|:--|--:") :: ("|1|2") :: []) ⟨0, (""), []⟩ =
      (renderTable mc0 ⟨0, (""), []⟩ (("|a|b") :: ("|:--|--:") :: ("|1|2") :: [])).1 :=
  ⟨(c3_theorem mc0 ⟨0, (""), []⟩ (("|a|") :: ("|--|--|") :: [])).2.1 (by decide),
   ((c3_theorem mc0 ⟨0, (""), []⟩ (("|a|b") :: ("|:--|--:") :: ("|1|2") :: [])).2.2
      (by decide)).1⟩

end MD
